import Mathlib

/-!
Shallow embedding of the BTCZS Layer-2 core (btczs-layer2 repository) and
verification of its specification claims.

Machine integers are modelled as `Nat` with explicit `% 2^w` wrapping at the
places where the Rust source performs unchecked arithmetic on a fixed-width
integer and overflow is reachable for type-legal inputs; saturating operations
are modelled with `min`; checked subtractions are guarded exactly as in the
source.  Byte arrays (`Txid`, 32-byte hashes, address bytes) are `List Nat`.
-/

/-- 2^64, the modulus of Rust `u64` arithmetic. -/
def u64Mod : Nat := 2 ^ 64

/-- `u64::MAX`. -/
def u64Max : Nat := 2 ^ 64 - 1

/-- 2^128, the modulus of Rust `u128` arithmetic. -/
def u128Mod : Nat := 2 ^ 128

/-- `u128::MAX`. -/
def u128Max : Nat := 2 ^ 128 - 1

/-- Rust `u64::saturating_add`. -/
def satAdd64 (a b : Nat) : Nat := min (a + b) u64Max

/-- Rust `u128::saturating_add`. -/
def satAdd128 (a b : Nat) : Nat := min (a + b) u128Max

/-- Rust `u128::saturating_mul`. -/
def satMul128 (a b : Nat) : Nat := min (a * b) u128Max

/-- The all-zero 20-byte value (`[0u8; 20]`). -/
def zeros20 : List Nat := List.replicate 20 0

/-- The all-zero 32-byte value (`[0u8; 32]`, e.g. `Txid([0u8; 32])`). -/
def zeros32 : List Nat := List.replicate 32 0

/-- Chainstate error (`chainstate::stacks::Error`); the source only uses the
`InvalidStacksBlock(String)` variant in the code under verification. -/
inductive ChainErr where
  | invalidStacksBlock (msg : String)
deriving DecidableEq

/-- Burn-operation error (`chainstate::burn::operations::Error`); the source
only uses the `InvalidInput` variant in the code under verification. -/
inductive OpError where
  | invalidInput
deriving DecidableEq

/-- Decidable equality for `Except` results, so that concrete runs of the
fallible operations can be checked by `decide`. -/
instance exceptDecEq {ε α : Type} [DecidableEq ε] [DecidableEq α] :
    DecidableEq (Except ε α) := fun x y =>
  match x, y with
  | .ok a, .ok b => if h : a = b then isTrue (by rw [h]) else isFalse (by simp [h])
  | .error a, .error b => if h : a = b then isTrue (by rw [h]) else isFalse (by simp [h])
  | .ok _, .error _ => isFalse (by simp)
  | .error _, .ok _ => isFalse (by simp)

/-! ## Token ledger (`chainstate/stacks/btczs_token.rs`) -/

/-- `BTCZS_TOTAL_SUPPLY: u128 = 21_000_000_000_000_000` (21B BTCZS in microBTCZS). -/
def BTCZS_TOTAL_SUPPLY : Nat := 21000000000000000

/-- `MICRO_BTCZS_PER_BTCZS: u128 = 1_000_000`. -/
def MICRO_BTCZS_PER_BTCZS : Nat := 1000000

/-- `BTCZS_GENESIS_REWARD: u128 = 12500 * MICRO_BTCZS_PER_BTCZS`. -/
def BTCZS_GENESIS_REWARD : Nat := 12500 * MICRO_BTCZS_PER_BTCZS

/-- `BTCZS_HALVING_INTERVAL: u64 = 840_000`. -/
def BTCZS_HALVING_INTERVAL : Nat := 840000

/-- `BTCZS_MIN_STACKING_AMOUNT: u128 = 1000 * MICRO_BTCZS_PER_BTCZS`. -/
def BTCZS_MIN_STACKING_AMOUNT : Nat := 1000 * MICRO_BTCZS_PER_BTCZS

/-- `MIN_BITCOINZ_BURN_AMOUNT: u64 = 1000` (burnchains/bitcoinz/burn.rs). -/
def MIN_BITCOINZ_BURN_AMOUNT : Nat := 1000

/-- `MAX_BITCOINZ_BURN_AMOUNT: u64 = 100_000_000_000` (burnchains/bitcoinz/burn.rs). -/
def MAX_BITCOINZ_BURN_AMOUNT : Nat := 100000000000

/-- `struct BTCZSBalance` with `available`, `locked`, `total`, `last_updated`. -/
structure BTCZSBalance where
  available : Nat
  locked : Nat
  total : Nat
  last_updated : Nat
deriving DecidableEq

namespace BTCZSBalance

/-- `BTCZSBalance::new(available, locked, last_updated)`:
`total = available + locked` (unchecked u128 addition). -/
def new (available locked last_updated : Nat) : BTCZSBalance :=
  { available := available
    locked := locked
    total := (available + locked) % u128Mod
    last_updated := last_updated }

/-- `BTCZSBalance::zero(block_height)`. -/
def zero (block_height : Nat) : BTCZSBalance := new 0 0 block_height

/-- `BTCZSBalance::can_transfer(amount)`: `available >= amount`. -/
def can_transfer (b : BTCZSBalance) (amount : Nat) : Bool := amount ≤ b.available

/-- `BTCZSBalance::debit(amount)`: checked debit of `available`, then
`total = available + locked` is recomputed. -/
def debit (b : BTCZSBalance) (amount : Nat) : Except ChainErr BTCZSBalance :=
  if ¬ b.can_transfer amount then
    .error (ChainErr.invalidStacksBlock "Insufficient balance")
  else
    let available := b.available - amount
    .ok { b with available := available, total := (available + b.locked) % u128Mod }

/-- `BTCZSBalance::credit(amount)`: `available += amount` (unchecked u128),
then `total` is recomputed. -/
def credit (b : BTCZSBalance) (amount : Nat) : BTCZSBalance :=
  let available := (b.available + amount) % u128Mod
  { b with available := available, total := (available + b.locked) % u128Mod }

/-- `BTCZSBalance::lock_for_stacking(amount)`: guarded move from `available`
to `locked`, then `total` is recomputed. -/
def lock_for_stacking (b : BTCZSBalance) (amount : Nat) : Except ChainErr BTCZSBalance :=
  if ¬ b.can_transfer amount then
    .error (ChainErr.invalidStacksBlock "Insufficient balance")
  else
    let available := b.available - amount
    let locked := (b.locked + amount) % u128Mod
    .ok { b with available := available, locked := locked,
                 total := (available + locked) % u128Mod }

/-- `BTCZSBalance::unlock_from_stacking(amount)`: guarded move from `locked`
to `available`, then `total` is recomputed. -/
def unlock_from_stacking (b : BTCZSBalance) (amount : Nat) : Except ChainErr BTCZSBalance :=
  if b.locked < amount then
    .error (ChainErr.invalidStacksBlock "Insufficient balance")
  else
    let locked := b.locked - amount
    let available := (b.available + amount) % u128Mod
    .ok { b with available := available, locked := locked,
                 total := (available + locked) % u128Mod }

end BTCZSBalance

/-- One balance operation of the token ledger, for reasoning about sequences
of `BTCZSBalance` method calls. -/
inductive BalanceOp where
  | debit (amount : Nat)
  | credit (amount : Nat)
  | lock (amount : Nat)
  | unlock (amount : Nat)
deriving DecidableEq

/-- Apply one balance operation; `Except.error` means the source method
returned `Err` (in which case it did not mutate `self`). -/
def applyBalanceOp (b : BTCZSBalance) : BalanceOp → Except ChainErr BTCZSBalance
  | .debit amount => b.debit amount
  | .credit amount => .ok (b.credit amount)
  | .lock amount => b.lock_for_stacking amount
  | .unlock amount => b.unlock_from_stacking amount

/-- Apply one balance operation, keeping the old balance on failure (the
source methods return `Err` without mutating `self`). -/
def applyBalanceOpOrKeep (b : BTCZSBalance) (op : BalanceOp) : BTCZSBalance :=
  match applyBalanceOp b op with
  | .ok b' => b'
  | .error _ => b

/-- Apply a sequence of balance operations. -/
def applyBalanceOps (b : BTCZSBalance) (ops : List BalanceOp) : BTCZSBalance :=
  ops.foldl applyBalanceOpOrKeep b

/-- Sum of the amounts credited by a sequence of balance operations (used to
bound the u128 arithmetic of the ledger). -/
def creditSum : List BalanceOp → Nat
  | [] => 0
  | .credit amount :: rest => amount + creditSum rest
  | _ :: rest => creditSum rest

namespace BTCZSRewards

/-- The `for _ in 0..halvings { reward /= 2; if reward == 0 { break; } }` loop
of `BTCZSRewards::calculate_block_reward`. -/
def halveLoop (reward : Nat) : Nat → Nat
  | 0 => reward
  | n + 1 =>
    let r := reward / 2
    if r = 0 then r else halveLoop r n

/-- `BTCZSRewards::calculate_block_reward(block_height)`. -/
def calculate_block_reward (block_height : Nat) : Nat :=
  halveLoop BTCZS_GENESIS_REWARD (block_height / BTCZS_HALVING_INTERVAL)

/-- `BTCZSRewards::calculate_stacking_reward(burn, total_stacked, stacker)`. -/
def calculate_stacking_reward (bitcoinz_burn_amount total_stacked_btczs stacker_amount : Nat) : Nat :=
  if total_stacked_btczs = 0 ∨ stacker_amount = 0 then 0
  else
    let btczs_reward_pool := bitcoinz_burn_amount * 1000
    btczs_reward_pool * stacker_amount / total_stacked_btczs

end BTCZSRewards

namespace BTCZSDistribution

/-- `BTCZSDistribution::calculate_stacking_participation_bonus(cycles, base)`:
duration multiplier 100 / 110 / 125 / 150 per the source `match`. -/
def calculate_stacking_participation_bonus (stacking_duration_cycles base_reward : Nat) : Nat :=
  let duration_multiplier :=
    if 1 ≤ stacking_duration_cycles ∧ stacking_duration_cycles ≤ 2 then 100
    else if 3 ≤ stacking_duration_cycles ∧ stacking_duration_cycles ≤ 6 then 110
    else if 7 ≤ stacking_duration_cycles ∧ stacking_duration_cycles ≤ 12 then 125
    else 150
  base_reward * duration_multiplier / 100

end BTCZSDistribution

namespace BTCZSFees

/-- `BTCZSFees::calculate_stacking_fee(reward_amount)`: 2% fee, `reward / 50`. -/
def calculate_stacking_fee (reward_amount : Nat) : Nat := reward_amount / 50

end BTCZSFees

/-- Minimal model of `StacksAddress` (version byte and 20-byte hash); the code
under verification only moves these values around. -/
structure StacksAddress where
  version : Nat
  bytes : List Nat
deriving DecidableEq

namespace BTCZSAccount

/-- `BTCZSAccount::get_balance(address, block_height)`: the source is a stub
(`TODO: Implement database lookup`) that always returns `Ok(BTCZSBalance::zero(0))`. -/
def get_balance (_address : StacksAddress) (_block_height : Nat) : Except ChainErr BTCZSBalance :=
  .ok (BTCZSBalance.zero 0)

/-- `BTCZSAccount::mint_tokens(address, amount, block_height)`: fetches the
balance, credits `amount` unconditionally, and writes it back
(`update_balance` is a stub returning `Ok(())`); the returned balance models
the balance written back.  There is no check against `BTCZS_TOTAL_SUPPLY`. -/
def mint_tokens (address : StacksAddress) (amount : Nat) (block_height : Nat) :
    Except ChainErr BTCZSBalance := do
  let balance ← get_balance address block_height
  .ok (balance.credit amount)

end BTCZSAccount

/-! ## Fee engine (`chainstate/stacks/btczs_fees.rs`) -/

/-- `struct BTCZSFeeDistribution` with the four shares. -/
structure BTCZSFeeDistribution where
  miner_fees : Nat
  stacker_fees : Nat
  network_fees : Nat
  burned_fees : Nat
deriving DecidableEq

namespace BTCZSFeeDistribution

/-- `BTCZSFeeDistribution::from_total_fees(total_fees)`: each share is
`(total_fees * percentage) / 100` in u128 arithmetic; no remainder handling. -/
def from_total_fees (total_fees : Nat) : BTCZSFeeDistribution :=
  { miner_fees := total_fees * 60 % u128Mod / 100
    stacker_fees := total_fees * 25 % u128Mod / 100
    network_fees := total_fees * 10 % u128Mod / 100
    burned_fees := total_fees * 5 % u128Mod / 100 }

/-- `BTCZSFeeDistribution::total()`: sum of the four shares (unchecked u128). -/
def total (d : BTCZSFeeDistribution) : Nat :=
  (d.miner_fees + d.stacker_fees + d.network_fees + d.burned_fees) % u128Mod

end BTCZSFeeDistribution

/-! ## Burnchain types (`burnchains/bitcoinz/mod.rs`, `address.rs`) -/

/-- `enum BitcoinZNetworkType`. -/
inductive BitcoinZNetworkType where
  | mainnet
  | testnet
  | regtest
deriving DecidableEq

/-- `enum BitcoinZAddressType`. -/
inductive BitcoinZAddressType where
  | publicKeyHash
  | scriptHash
  | shielded
deriving DecidableEq

/-- `struct BitcoinZAddress`. -/
structure BitcoinZAddress where
  address_type : BitcoinZAddressType
  network : BitcoinZNetworkType
  bytes : List Nat
deriving DecidableEq

/-- `enum PoxAddress` (chainstate/stacks/address.rs); the code under
verification only discriminates the three variants, so the payloads are kept
as plain bytes. -/
inductive PoxAddress where
  | standard (version : Nat) (hash : List Nat)
  | addr32 (network : Nat) (tag : Nat) (bytes : List Nat)
  | addr20 (network : Nat) (tag : Nat) (bytes : List Nat)
deriving DecidableEq

/-- `struct BitcoinZTransaction` (fields `inputs`/`outputs` are not consulted
by the code under verification and are omitted). -/
structure BitcoinZTransaction where
  txid : List Nat
  vtxindex : Nat
  opcode : Nat
  data : List Nat
  data_amt : Nat
deriving DecidableEq

/-- `struct BurnchainBlockHeader`: the fields consulted by
`process_bitcoinz_block` / `make_bitcoinz_snapshot`. -/
structure BurnchainBlockHeader where
  block_height : Nat
  block_hash : List Nat
  parent_block_hash : List Nat
deriving DecidableEq

/-! ## Burn operations (`chainstate/burn/operations/bitcoinz_burn.rs`,
`burnchains/bitcoinz/burn.rs`) -/

/-- `struct BitcoinZLeaderBlockCommitOp`. -/
structure BitcoinZLeaderBlockCommitOp where
  sender : BitcoinZAddress
  burn_fee : Nat
  commit_outs : List PoxAddress
  txid : List Nat
  vtxindex : Nat
  block_height : Nat
  burn_header_hash : List Nat
  block_header_hash : List Nat
  vrf_seed : List Nat
  key_block_ptr : Nat
  key_vtxindex : Nat
  parent_block_ptr : Nat
  parent_vtxindex : Nat
deriving DecidableEq

/-- `BitcoinZLeaderBlockCommitOp::check()`: requires
`burn_fee >= MIN_BITCOINZ_BURN_AMOUNT`; every `PoxAddress` variant in
`commit_outs` is accepted. -/
def BitcoinZLeaderBlockCommitOp.check (op : BitcoinZLeaderBlockCommitOp) : Except OpError Unit :=
  if op.burn_fee < MIN_BITCOINZ_BURN_AMOUNT then .error OpError.invalidInput
  else .ok ()

/-- `struct BitcoinZStackStxOp`. -/
structure BitcoinZStackStxOp where
  sender : StacksAddress
  reward_addr : BitcoinZAddress
  stacked_ustx : Nat
  num_cycles : Nat
  txid : List Nat
  vtxindex : Nat
  block_height : Nat
  burn_header_hash : List Nat
deriving DecidableEq

/-- `BitcoinZStackStxOp::check()`. -/
def BitcoinZStackStxOp.check (op : BitcoinZStackStxOp) : Except OpError Unit :=
  if op.stacked_ustx = 0 then .error OpError.invalidInput
  else if op.num_cycles = 0 ∨ op.num_cycles > 12 then .error OpError.invalidInput
  else .ok ()

/-- `struct BitcoinZBurnOp` (burnchains/bitcoinz/burn.rs). -/
structure BitcoinZBurnOp where
  sender : BitcoinZAddress
  burn_amount : Nat
  reward_address : PoxAddress
  txid : List Nat
  vtxindex : Nat
  block_height : Nat
  burn_header_hash : List Nat
deriving DecidableEq

/-- `BitcoinZBurnOp::check()`: burn amount within
`[MIN_BITCOINZ_BURN_AMOUNT, MAX_BITCOINZ_BURN_AMOUNT]`; every `PoxAddress`
variant is accepted as reward address. -/
def BitcoinZBurnOp.check (op : BitcoinZBurnOp) : Except OpError Unit :=
  if op.burn_amount < MIN_BITCOINZ_BURN_AMOUNT then .error OpError.invalidInput
  else if op.burn_amount > MAX_BITCOINZ_BURN_AMOUNT then .error OpError.invalidInput
  else .ok ()

/-- `enum BitcoinZBurnOperation`. -/
inductive BitcoinZBurnOperation where
  | leaderBlockCommit (op : BitcoinZLeaderBlockCommitOp)
  | stackStx (op : BitcoinZStackStxOp)
  | burn (op : BitcoinZBurnOp)
deriving DecidableEq

namespace BitcoinZBurnOperation

/-- `BitcoinZBurnOperation::parse_from_tx`: the source always returns
`Ok(None)` (`TODO: Implement operation detection...; For now, return None`). -/
def parse_from_tx (_tx : BitcoinZTransaction) (_block_height : Nat)
    (_burn_header_hash : List Nat) : Except OpError (Option BitcoinZBurnOperation) :=
  .ok none

/-- `BitcoinZBurnOperation::check()`. -/
def check : BitcoinZBurnOperation → Except OpError Unit
  | leaderBlockCommit op => op.check
  | stackStx op => op.check
  | burn op => op.check

/-- `BitcoinZBurnOperation::txid()`. -/
def txid : BitcoinZBurnOperation → List Nat
  | leaderBlockCommit op => op.txid
  | stackStx op => op.txid
  | burn op => op.txid

/-- `BitcoinZBurnOperation::burn_amount()`. -/
def burn_amount : BitcoinZBurnOperation → Nat
  | leaderBlockCommit op => op.burn_fee
  | stackStx _ => 0
  | burn op => op.burn_amount

end BitcoinZBurnOperation

/-! ## Sortition engine (`chainstate/burn/bitcoinz_consensus.rs`) -/

/-- `struct BitcoinZBurnSamplePoint`. -/
structure BitcoinZBurnSamplePoint where
  candidate : BitcoinZLeaderBlockCommitOp
  range_start : Nat
  range_end : Nat
  burn_amount : Nat
  frequency : Nat
deriving DecidableEq

/-- `BitcoinZBurnSamplePoint::new(candidate, burn_amount, frequency)`:
ranges initialised to 0. -/
def BitcoinZBurnSamplePoint.new (candidate : BitcoinZLeaderBlockCommitOp)
    (burn_amount frequency : Nat) : BitcoinZBurnSamplePoint :=
  { candidate := candidate, range_start := 0, range_end := 0,
    burn_amount := burn_amount, frequency := frequency }

/-- First loop of `make_bitcoinz_distribution`: `total_burn` accumulated as
u128 (`total_burn += burn_amount as u128`, unchecked). -/
def totalBurnOf (cands : List BitcoinZLeaderBlockCommitOp) : Nat :=
  cands.foldl (fun acc c => (acc + c.burn_fee) % u128Mod) 0

/-- First loop of `make_bitcoinz_distribution`: one sample point per
candidate, `frequency` placeholder 1. -/
def mkSamplePoints (cands : List BitcoinZLeaderBlockCommitOp) : List BitcoinZBurnSamplePoint :=
  cands.map (fun c => BitcoinZBurnSamplePoint.new c c.burn_fee 1)

/-- Range-assignment loop of `make_bitcoinz_distribution`: for each point,
`proportion = burn_amount.saturating_mul(u128::MAX / total_burn)`,
`range_start = current_start`, `range_end = current_start.saturating_add(proportion)`. -/
def assignRanges (total_burn : Nat) (current_start : Nat) :
    List BitcoinZBurnSamplePoint → List BitcoinZBurnSamplePoint
  | [] => []
  | p :: rest =>
    let burn_proportion :=
      if total_burn > 0 then satMul128 p.burn_amount (u128Max / total_burn) else 0
    let range_end := satAdd128 current_start burn_proportion
    { p with range_start := current_start, range_end := range_end }
      :: assignRanges total_burn range_end rest

/-- Final step of `make_bitcoinz_distribution`: the last point's `range_end`
is forced to `u128::MAX`. -/
def forceLastEnd : List BitcoinZBurnSamplePoint → List BitcoinZBurnSamplePoint
  | [] => []
  | [p] => [{ p with range_end := u128Max }]
  | p :: q :: rest => p :: forceLastEnd (q :: rest)

/-- `BitcoinZBurnSamplePoint::make_bitcoinz_distribution(window, candidates)`
(the `mining_commitment_window` argument is unused by the source). -/
def make_bitcoinz_distribution (_mining_commitment_window : Nat)
    (all_block_candidates : List BitcoinZLeaderBlockCommitOp) : List BitcoinZBurnSamplePoint :=
  if all_block_candidates.isEmpty then []
  else
    let total_burn := totalBurnOf all_block_candidates
    if total_burn = 0 then []
    else forceLastEnd (assignRanges total_burn 0 (mkSamplePoints all_block_candidates))

/-- `struct BitcoinZStateTransition`. -/
structure BitcoinZStateTransition where
  bitcoinz_ops : List BitcoinZBurnOperation
  burn_dist : List BitcoinZBurnSamplePoint
  total_burns : Nat
  txids : List (List Nat)
deriving DecidableEq

/-- `BitcoinZStateTransition::from_bitcoinz_ops(ops)`: `LeaderBlockCommit`
and `Burn` amounts accumulate into `total_burns` with `u64::saturating_add`;
`StackStx` contributes nothing; leader commits feed the burn distribution.
The source wraps the result in `Ok`, with no error path: the accumulation
step of its loop. -/
def burnsStep (acc : Nat) : BitcoinZBurnOperation → Nat
  | .leaderBlockCommit c => satAdd64 acc c.burn_fee
  | .burn b => satAdd64 acc b.burn_amount
  | .stackStx _ => acc

/-- The leader commits extracted by the loop of `from_bitcoinz_ops`. -/
def leaderCommitsOf (ops : List BitcoinZBurnOperation) : List BitcoinZLeaderBlockCommitOp :=
  ops.filterMap (fun op =>
    match op with
    | .leaderBlockCommit c => some c
    | _ => none)

/-- `BitcoinZStateTransition::from_bitcoinz_ops(ops)` assembled from the two
loop results above. -/
def from_bitcoinz_ops (ops : List BitcoinZBurnOperation) : BitcoinZStateTransition :=
  let leader_commits := leaderCommitsOf ops
  let total_burns := ops.foldl burnsStep 0
  { bitcoinz_ops := ops
    burn_dist := make_bitcoinz_distribution 6 leader_commits
    total_burns := total_burns
    txids := ops.map BitcoinZBurnOperation.txid }

/-- `SortitionId`: the source only ever stores `SortitionId::stubbed(hash)`,
kept as an opaque wrapper of the block hash. -/
inductive SortId where
  | stubbed (hash : List Nat)
deriving DecidableEq

/-- `struct BlockSnapshot`: the fields written by `make_bitcoinz_snapshot`. -/
structure BlockSnapshot where
  block_height : Nat
  burn_header_timestamp : Nat
  burn_header_hash : List Nat
  parent_burn_header_hash : List Nat
  consensus_hash : List Nat
  ops_hash : List Nat
  total_burn : Nat
  sortition : Bool
  sortition_hash : List Nat
  winning_block_txid : List Nat
  winning_stacks_block_hash : List Nat
  index_root : List Nat
  num_sortitions : Nat
  stacks_block_accepted : Bool
  stacks_block_height : Nat
  arrival_index : Nat
  canonical_stacks_tip_height : Nat
  canonical_stacks_tip_hash : List Nat
  canonical_stacks_tip_consensus_hash : List Nat
  sortition_id : SortId
  parent_sortition_id : SortId
  pox_valid : Bool
  accumulated_coinbase_ustx : Nat
  miner_pk_hash : Option (List Nat)
deriving DecidableEq

/-- Default sample point, used to model the source's `burn_dist[0]` indexing. -/
def dfltSamplePoint : BitcoinZBurnSamplePoint :=
  BitcoinZBurnSamplePoint.new
    { sender := { address_type := .publicKeyHash, network := .mainnet, bytes := [] }
      burn_fee := 0, commit_outs := [], txid := [], vtxindex := 0, block_height := 0
      burn_header_hash := [], block_header_hash := [], vrf_seed := []
      key_block_ptr := 0, key_vtxindex := 0, parent_block_ptr := 0, parent_vtxindex := 0 }
    0 0

/-- `BitcoinZConsensus::make_bitcoinz_snapshot(_, _, parent, header, st)`:
`total_burn = parent.total_burn + st.total_burns` (unchecked u64 addition,
not saturating); `sortition` iff the burn distribution is non-empty; the
winner is `burn_dist[0]` (`Simplified: pick first for now`); `num_sortitions`
adds 1 on a sortition (unchecked u64). -/
def make_bitcoinz_snapshot (parent_snapshot : BlockSnapshot)
    (block_header : BurnchainBlockHeader) (state_transition : BitcoinZStateTransition) :
    BlockSnapshot :=
  let total_burn := (parent_snapshot.total_burn + state_transition.total_burns) % u64Mod
  let sortition := !state_transition.burn_dist.isEmpty
  let winner :=
    if sortition && !state_transition.burn_dist.isEmpty then
      let w := state_transition.burn_dist.getD 0 dfltSamplePoint
      (w.candidate.txid, w.candidate.block_header_hash)
    else (zeros32, zeros32)
  { block_height := block_header.block_height
    burn_header_timestamp := 0
    burn_header_hash := block_header.block_hash
    parent_burn_header_hash := block_header.parent_block_hash
    consensus_hash := zeros20
    ops_hash := zeros32
    total_burn := total_burn
    sortition := sortition
    sortition_hash := zeros32
    winning_block_txid := winner.1
    winning_stacks_block_hash := winner.2
    index_root := zeros32
    num_sortitions :=
      (parent_snapshot.num_sortitions + if sortition then 1 else 0) % u64Mod
    stacks_block_accepted := false
    stacks_block_height := 0
    arrival_index := 0
    canonical_stacks_tip_height := parent_snapshot.canonical_stacks_tip_height
    canonical_stacks_tip_hash := parent_snapshot.canonical_stacks_tip_hash
    canonical_stacks_tip_consensus_hash := parent_snapshot.canonical_stacks_tip_consensus_hash
    sortition_id := SortId.stubbed block_header.block_hash
    parent_sortition_id := parent_snapshot.sortition_id
    pox_valid := true
    accumulated_coinbase_ustx := parent_snapshot.accumulated_coinbase_ustx
    miner_pk_hash := none }

/-- `BitcoinZConsensus::process_bitcoinz_block(_, _, parent, header, txs)`:
parses each transaction (parsing currently always yields `None`), keeps the
ops whose `check()` passes, builds the state transition and the snapshot.
The source's only error path is the `Result` of `from_bitcoinz_ops`, which
never fails. -/
def process_bitcoinz_block (parent_snapshot : BlockSnapshot)
    (block_header : BurnchainBlockHeader) (bitcoinz_txs : List BitcoinZTransaction) :
    BlockSnapshot × BitcoinZStateTransition :=
  let bitcoinz_ops := bitcoinz_txs.foldl (fun acc tx =>
    match BitcoinZBurnOperation.parse_from_tx tx block_header.block_height
        block_header.block_hash with
    | .ok (some op) => if op.check.isOk then acc ++ [op] else acc
    | _ => acc) []
  let state_transition := from_bitcoinz_ops bitcoinz_ops
  (make_bitcoinz_snapshot parent_snapshot block_header state_transition, state_transition)

/-! ## Stacking ledger (`chainstate/stacks/btczs_stacking.rs`) -/

/-- `BTCZS_REWARD_CYCLE_LENGTH: u64 = 2100`. -/
def BTCZS_REWARD_CYCLE_LENGTH : Nat := 2100

/-- `BTCZS_PREPARE_CYCLE_LENGTH: u64 = 100`. -/
def BTCZS_PREPARE_CYCLE_LENGTH : Nat := 100

/-- `BTCZS_MAX_STACKING_CYCLES: u8 = 12`. -/
def BTCZS_MAX_STACKING_CYCLES : Nat := 12

/-- `struct BTCZSStackingState`. -/
structure BTCZSStackingState where
  stacker : StacksAddress
  stacked_ustx : Nat
  bitcoinz_reward_address : BitcoinZAddress
  first_reward_cycle : Nat
  lock_period : Nat
  unlock_burn_height : Nat
  total_btczs_rewards : Nat
  last_reward_cycle : Nat
deriving DecidableEq

/-- `BTCZSStackingState::new(...)`:
`unlock_burn_height = (first_reward_cycle + lock_period) * BTCZS_REWARD_CYCLE_LENGTH`. -/
def BTCZSStackingState.new (stacker : StacksAddress) (stacked_ustx : Nat)
    (bitcoinz_reward_address : BitcoinZAddress) (first_reward_cycle lock_period : Nat) :
    BTCZSStackingState :=
  { stacker := stacker
    stacked_ustx := stacked_ustx
    bitcoinz_reward_address := bitcoinz_reward_address
    first_reward_cycle := first_reward_cycle
    lock_period := lock_period
    unlock_burn_height := (first_reward_cycle + lock_period) * BTCZS_REWARD_CYCLE_LENGTH
    total_btczs_rewards := 0
    last_reward_cycle := 0 }

/-- `struct BTCZSRewardCycle`. -/
structure BTCZSRewardCycle where
  cycle_number : Nat
  total_stacked_ustx : Nat
  total_bitcoinz_burned : Nat
  total_btczs_rewards : Nat
  stackers : List BTCZSStackingState
  rewards_distributed : Bool
deriving DecidableEq

namespace BTCZSRewardCycle

/-- Loop body of `BTCZSRewardCycle::distribute_rewards` for one stacker:
share of `total_btczs_rewards` proportional to stake, duration bonus, 2% fee;
the stacker's `total_btczs_rewards` and `last_reward_cycle` are updated and a
payout entry is appended. -/
def distStep (c : BTCZSRewardCycle)
    (acc : List BTCZSStackingState × List (BitcoinZAddress × Nat))
    (stacker : BTCZSStackingState) :
    List BTCZSStackingState × List (BitcoinZAddress × Nat) :=
  if c.total_stacked_ustx > 0 then
    let stacker_reward := c.total_btczs_rewards * stacker.stacked_ustx / c.total_stacked_ustx
    let bonus_reward :=
      BTCZSDistribution.calculate_stacking_participation_bonus stacker.lock_period stacker_reward
    let fee := BTCZSFees.calculate_stacking_fee bonus_reward
    let final_reward := bonus_reward - fee
    let stacker' := { stacker with
      total_btczs_rewards := stacker.total_btczs_rewards + final_reward
      last_reward_cycle := c.cycle_number }
    (acc.1 ++ [stacker'], acc.2 ++ [(stacker.bitcoinz_reward_address, final_reward)])
  else
    (acc.1 ++ [stacker], acc.2)

/-- `BTCZSRewardCycle::distribute_rewards()`: fails with
`InvalidStacksBlock("Rewards already distributed")` when `rewards_distributed`
is already set; otherwise accrues each stacker's payout and sets the flag.
The returned cycle models the mutated `self`. -/
def distribute_rewards (c : BTCZSRewardCycle) :
    Except ChainErr (BTCZSRewardCycle × List (BitcoinZAddress × Nat)) :=
  if c.rewards_distributed then
    .error (ChainErr.invalidStacksBlock "Rewards already distributed")
  else
    let r := c.stackers.foldl (distStep c) ([], [])
    .ok ({ c with stackers := r.1, rewards_distributed := true }, r.2)

/-- State reached by calling `distribute_rewards` on a cycle: the mutated
cycle on success, the unchanged cycle on failure (the source returns `Err`
before any mutation). -/
def stepDistribute (c : BTCZSRewardCycle) : BTCZSRewardCycle :=
  match distribute_rewards c with
  | .ok (c', _) => c'
  | .error _ => c

end BTCZSRewardCycle

/-! ## Address codec (`burnchains/bitcoinz/address.rs`) -/

/-- Error type of the address codec (`burnchains/bitcoinz/Error`); the code
under verification only produces `InvalidByteSequence`. -/
inductive AddrError where
  | invalidByteSequence
deriving DecidableEq

/-- Right rotation of a 32-bit word. -/
def rotr32 (x n : Nat) : Nat :=
  (x >>> n ||| x <<< (32 - n)) % 2 ^ 32

/-- Modelled from the spec: the address checksum is computed with
`Sha256Sum::from_data` of the external `stacks_common` crate, which is not
part of this repository; per the spec the Base58Check payload carries the
first 4 bytes of double-SHA-256.  This is the standard SHA-256 round-constant
table. -/
def sha256K : List Nat :=
  [
   1116352408, 1899447441, 3049323471, 3921009573,
   961987163, 1508970993, 2453635748, 2870763221,
   3624381080, 310598401, 607225278, 1426881987,
   1925078388, 2162078206, 2614888103, 3248222580,
   3835390401, 4022224774, 264347078, 604807628,
   770255983, 1249150122, 1555081692, 1996064986,
   2554220882, 2821834349, 2952996808, 3210313671,
   3336571891, 3584528711, 113926993, 338241895,
   666307205, 773529912, 1294757372, 1396182291,
   1695183700, 1986661051, 2177026350, 2456956037,
   2730485921, 2820302411, 3259730800, 3345764771,
   3516065817, 3600352804, 4094571909, 275423344,
   430227734, 506948616, 659060556, 883997877,
   958139571, 1322822218, 1537002063, 1747873779,
   1955562222, 2024104815, 2227730452, 2361852424,
   2428436474, 2756734187, 3204031479, 3329325298]

/-- Modelled from the spec (see `sha256K`): SHA-256 initial hash state. -/
def sha256H0 : List Nat :=
  [1779033703, 3144134277, 1013904242, 2773480762,
   1359893119, 2600822924, 528734635, 1541459225]

/-- Modelled from the spec (see `sha256K`): SHA-256 padding of a byte string:
append `0x80`, zero bytes to 56 mod 64, and the bit length as 8 big-endian
bytes. -/
def sha256Pad (msg : List Nat) : List Nat :=
  let len := msg.length
  let zeroCount := (55 + 64 - len % 64) % 64
  let bitLen := len * 8
  msg ++ [0x80] ++ List.replicate zeroCount 0 ++
    ((List.range 8).map (fun i => bitLen >>> ((7 - i) * 8) % 256))

/-- Modelled from the spec (see `sha256K`): split padded bytes into 32-bit
big-endian words. -/
def bytesToWords32 : List Nat → List Nat
  | b0 :: b1 :: b2 :: b3 :: rest =>
    (((b0 * 256 + b1) * 256 + b2) * 256 + b3) :: bytesToWords32 rest
  | _ => []

/-- Modelled from the spec (see `sha256K`): extend 16 message words to the
64-word schedule. -/
def sha256Schedule (block : List Nat) : List Nat :=
  (List.range 48).foldl (fun w i =>
    let s0 :=
      let x := w.getD (i + 1) 0
      rotr32 x 7 ^^^ rotr32 x 18 ^^^ (x >>> 3)
    let s1 :=
      let x := w.getD (i + 14) 0
      rotr32 x 17 ^^^ rotr32 x 19 ^^^ (x >>> 10)
    w ++ [(w.getD i 0 + s0 + w.getD (i + 9) 0 + s1) % 2 ^ 32]) block

/-- Modelled from the spec (see `sha256K`): one SHA-256 compression round. -/
def sha256Round (state : List Nat) (kw : Nat × Nat) : List Nat :=
  match state with
  | [a, b, c, d, e, f, g, h] =>
    let s1 := rotr32 e 6 ^^^ rotr32 e 11 ^^^ rotr32 e 25
    let ch := (e &&& f) ^^^ ((2 ^ 32 - 1 - e) &&& g)
    let t1 := (h + s1 + ch + kw.1 + kw.2) % 2 ^ 32
    let s0 := rotr32 a 2 ^^^ rotr32 a 13 ^^^ rotr32 a 22
    let mj := (a &&& b) ^^^ (a &&& c) ^^^ (b &&& c)
    let t2 := (s0 + mj) % 2 ^ 32
    [(t1 + t2) % 2 ^ 32, a, b, c, (d + t1) % 2 ^ 32, e, f, g]
  | s => s

/-- Modelled from the spec (see `sha256K`): compress one 16-word block into
the running state. -/
def sha256Block (state : List Nat) (block : List Nat) : List Nat :=
  let w := sha256Schedule block
  let out := (sha256K.zip w).foldl sha256Round state
  (state.zip out).map (fun p => (p.1 + p.2) % 2 ^ 32)

/-- Modelled from the spec (see `sha256K`): split the word stream into
16-word blocks (the padded length is always a multiple of 16 words). -/
def chunks16 : List Nat → List (List Nat)
  | w0 :: w1 :: w2 :: w3 :: w4 :: w5 :: w6 :: w7 ::
      w8 :: w9 :: w10 :: w11 :: w12 :: w13 :: w14 :: w15 :: rest =>
    [w0, w1, w2, w3, w4, w5, w6, w7, w8, w9, w10, w11, w12, w13, w14, w15] :: chunks16 rest
  | _ => []

/-- Modelled from the spec (see `sha256K`): fold the compression over all
16-word blocks of the padded message. -/
def sha256Blocks (state : List Nat) (ws : List Nat) : List Nat :=
  (chunks16 ws).foldl sha256Block state

/-- Modelled from the spec (see `sha256K`): SHA-256 of a byte string, as
32 output bytes. -/
def sha256 (msg : List Nat) : List Nat :=
  let ws := bytesToWords32 (sha256Pad msg)
  let h := sha256Blocks sha256H0 ws
  h.flatMap (fun x => [x >>> 24 % 256, x >>> 16 % 256, x >>> 8 % 256, x % 256])

/-- `Sha256Sum::from_data(Sha256Sum::from_data(payload))`: the double
SHA-256 whose first 4 bytes are the Base58Check checksum. -/
def doubleSha256 (payload : List Nat) : List Nat := sha256 (sha256 payload)

/-- The Base58 alphabet of `base58_encode` / `base58_decode`. -/
def BASE58_ALPHABET : List Char :=
  "123456789ABCDEFGHJKLMNPQRSTUVWXYZabcdefghijkmnopqrstuvwxyz".toList

/-- The `while num > 0` digit loop of `base58_encode`: little-endian base-58
digit characters of `num`.  The fuel argument only makes the recursion
structural; 130 steps always suffice for `num < 2^128`. -/
def b58Digits : Nat → Nat → List Char
  | 0, _ => []
  | fuel + 1, num =>
    if num = 0 then []
    else BASE58_ALPHABET.getD (num % 58) '1' :: b58Digits fuel (num / 58)

/-- `base58_encode(input)` (returns the character list of the Rust `String`).
The accumulator `num` is a Rust `u128`: `acc * 256 + b` wraps at 2^128, which
loses the high bytes of any payload longer than 16 bytes. -/
def base58_encode (input : List Nat) : List Char :=
  if input.isEmpty then []
  else
    let leading_zeros := (input.takeWhile (· == 0)).length
    let num := input.foldl (fun acc b => (acc * 256 + b) % u128Mod) 0
    List.replicate leading_zeros '1' ++ (b58Digits 130 num).reverse

/-- The character loop of `base58_decode`: `num = num * 58 + pos` on a Rust
`u128` (wraps at 2^128); a character outside the alphabet fails. -/
def b58Num (acc : Nat) : List Char → Except AddrError Nat
  | [] => .ok acc
  | c :: rest =>
    match List.findIdx? (fun x => x == c) BASE58_ALPHABET with
    | some pos => b58Num ((acc * 58 + pos) % u128Mod) rest
    | none => .error AddrError.invalidByteSequence

/-- The `while num > 0` byte loop of `base58_decode`: little-endian base-256
digits of `num` (fuel as in `b58Digits`). -/
def b256Bytes : Nat → Nat → List Nat
  | 0, _ => []
  | fuel + 1, num =>
    if num = 0 then []
    else num % 256 :: b256Bytes fuel (num / 256)

/-- `base58_decode(input)`. -/
def base58_decode (input : List Char) : Except AddrError (List Nat) :=
  if input.isEmpty then .ok []
  else do
    let leading_ones := (input.takeWhile (· == '1')).length
    let num ← b58Num 0 input
    .ok (List.replicate leading_ones 0 ++ (b256Bytes 130 num).reverse)

/-- `BitcoinZAddress::get_version_byte()`: the network-dependent version
byte table (P2PKH and P2SH share bytes; shielded uses 0). -/
def get_version_byte (a : BitcoinZAddress) : Nat :=
  match a.address_type, a.network with
  | .publicKeyHash, .mainnet => 0x1C
  | .publicKeyHash, .testnet => 0x1D
  | .publicKeyHash, .regtest => 0x1D
  | .scriptHash, .mainnet => 0x1C
  | .scriptHash, .testnet => 0x1D
  | .scriptHash, .regtest => 0x1D
  | .shielded, _ => 0x00

/-- Lower-case hex digit character, for the shielded-address placeholder
(`format!("{:02x}", b)`). -/
def hexChar (n : Nat) : Char := "0123456789abcdef".toList.getD n '0'

/-- Two-character lower-case hex of one byte. -/
def byteToHex (b : Nat) : List Char := [hexChar (b / 16), hexChar (b % 16)]

/-- `BitcoinZAddress::to_base58check()` (returns the character list of the
Rust `String`).  Shielded addresses get the placeholder `zs1` plus the hex of
the first 8 payload bytes; otherwise the Base58Check of
`[version] || bytes || first 4 bytes of double-SHA-256`. -/
def to_base58check (a : BitcoinZAddress) : List Char :=
  if a.address_type = .shielded then
    'z' :: 's' :: '1' :: (a.bytes.take 8).flatMap byteToHex
  else
    let version := get_version_byte a
    let payload := version :: a.bytes
    let checksum := doubleSha256 payload
    base58_encode (payload ++ checksum.take 4)

/-- Hexadecimal value of one character (`u8::from_str_radix(_, 16)` accepts
both cases). -/
def hexVal (c : Char) : Option Nat :=
  match List.findIdx? (fun x => x == c) "0123456789abcdef".toList with
  | some v => some v
  | none => List.findIdx? (fun x => x == c) "0123456789ABCDEF".toList

/-- The shielded branch of `from_base58check`: parse 4 bytes from the first
8 hex characters after `zs1`; a bad digit fails with `InvalidByteSequence`. -/
def parseShieldedHex (l : List Char) : Except AddrError (List Nat) :=
  match l with
  | c0 :: c1 :: c2 :: c3 :: c4 :: c5 :: c6 :: c7 :: _ =>
    match hexVal c0, hexVal c1, hexVal c2, hexVal c3,
          hexVal c4, hexVal c5, hexVal c6, hexVal c7 with
    | some v0, some v1, some v2, some v3, some v4, some v5, some v6, some v7 =>
      .ok [16 * v0 + v1, 16 * v2 + v3, 16 * v4 + v5, 16 * v6 + v7]
    | _, _, _, _, _, _, _, _ => .error AddrError.invalidByteSequence
  | _ => .error AddrError.invalidByteSequence

/-- The Base58Check branch of `from_base58check`: decode, require at least
25 bytes, verify the double-SHA-256 checksum, and accept version bytes
`0x1C`/`0x1D` as `PublicKeyHash` (the source's "Simplified version check";
the requested `network` is stamped on the result without being checked
against the version byte). -/
def from_base58check_b58 (address_str : List Char) (network : BitcoinZNetworkType) :
    Except AddrError BitcoinZAddress := do
  let decoded ← base58_decode address_str
  if decoded.length < 25 then
    .error AddrError.invalidByteSequence
  else
    let payload := decoded.take (decoded.length - 4)
    let checksum := decoded.drop (decoded.length - 4)
    let calculated_checksum := doubleSha256 payload
    if checksum ≠ calculated_checksum.take 4 then
      .error AddrError.invalidByteSequence
    else
      let version := payload.getD 0 0
      let hash_bytes := payload.drop 1
      if version = 0x1C ∨ version = 0x1D then
        .ok { address_type := .publicKeyHash, network := network, bytes := hash_bytes }
      else
        .error AddrError.invalidByteSequence

/-- `BitcoinZAddress::from_base58check(address_str, network)`. -/
def from_base58check (address_str : List Char) (network : BitcoinZNetworkType) :
    Except AddrError BitcoinZAddress :=
  match address_str with
  | 'z' :: 's' :: '1' :: hex_part =>
    if 8 ≤ hex_part.length then
      match parseShieldedHex hex_part with
      | .ok bytes => .ok { address_type := .shielded, network := network, bytes := bytes }
      | .error e => .error e
    else from_base58check_b58 address_str network
  | _ => from_base58check_b58 address_str network

/-! ## Concrete inputs used by the verification -/

/-- Sum of `burn_amount()` over an op list: the mathematical total that
`from_bitcoinz_ops` accumulates with saturating u64 additions. -/
def opsBurnSum (ops : List BitcoinZBurnOperation) : Nat :=
  (ops.map BitcoinZBurnOperation.burn_amount).sum

/-- A sample `StacksAddress`. -/
def exStacksAddr : StacksAddress := { version := 0, bytes := zeros20 }

/-- A mainnet P2PKH address with a 20-byte hash (`[0u8; 20]`). -/
def exMainnetAddr : BitcoinZAddress :=
  { address_type := .publicKeyHash, network := .mainnet, bytes := zeros20 }

/-- A validated leader block commit with the given burn fee and a txid /
block-header hash filled with `tag`. -/
def mkExCommit (burn tag : Nat) : BitcoinZLeaderBlockCommitOp :=
  { sender := exMainnetAddr
    burn_fee := burn
    commit_outs := []
    txid := List.replicate 32 tag
    vtxindex := 0
    block_height := 100
    burn_header_hash := zeros32
    block_header_hash := List.replicate 32 tag
    vrf_seed := zeros32
    key_block_ptr := 0
    key_vtxindex := 0
    parent_block_ptr := 0
    parent_vtxindex := 0 }

/-- A parent snapshot with zeroed counters. -/
def exParentSnapshot : BlockSnapshot :=
  { block_height := 99
    burn_header_timestamp := 0
    burn_header_hash := zeros32
    parent_burn_header_hash := zeros32
    consensus_hash := zeros20
    ops_hash := zeros32
    total_burn := 0
    sortition := false
    sortition_hash := zeros32
    winning_block_txid := zeros32
    winning_stacks_block_hash := zeros32
    index_root := zeros32
    num_sortitions := 0
    stacks_block_accepted := false
    stacks_block_height := 0
    arrival_index := 0
    canonical_stacks_tip_height := 0
    canonical_stacks_tip_hash := zeros32
    canonical_stacks_tip_consensus_hash := zeros20
    sortition_id := .stubbed zeros32
    parent_sortition_id := .stubbed zeros32
    pox_valid := true
    accumulated_coinbase_ustx := 0
    miner_pk_hash := none }

/-- An L1 block header at height 100. -/
def exBlockHeader : BurnchainBlockHeader :=
  { block_height := 100, block_hash := List.replicate 32 7, parent_block_hash := zeros32 }

/-- Two validated leader commits: burn fees 3000 and 1000. -/
def exTwoCommitOps : List BitcoinZBurnOperation :=
  [.leaderBlockCommit (mkExCommit 3000 1), .leaderBlockCommit (mkExCommit 1000 2)]

/-- A draw value landing in the second candidate's range. -/
def exDrawR : Nat := u128Max - 1

/-- Two validated candidates whose burn fees differ by one unit, at the top
of the u64 range: the forced last `range_end` hands the smaller burn the
wider range. -/
def exC3Cands : List BitcoinZLeaderBlockCommitOp :=
  [mkExCommit (2 ^ 64 - 1) 1, mkExCommit (2 ^ 64 - 2) 2]

/-- A validated generic burn of the minimum amount. -/
def exBurnOp1000 : BitcoinZBurnOperation :=
  .burn
    { sender := exMainnetAddr
      burn_amount := 1000
      reward_address := .standard 0 zeros20
      txid := List.replicate 32 3
      vtxindex := 0
      block_height := 100
      burn_header_hash := zeros32 }

/-- A parent snapshot whose cumulative burn already sits at `u64::MAX`. -/
def exParentMax : BlockSnapshot := { exParentSnapshot with total_burn := u64Max }

/-- A reward cycle with one stacker, not yet distributed. -/
def exCycle : BTCZSRewardCycle :=
  { cycle_number := 5
    total_stacked_ustx := 1000000
    total_bitcoinz_burned := 10000
    total_btczs_rewards := 5000000
    stackers := [BTCZSStackingState.new exStacksAddr 1000000
      { address_type := .publicKeyHash, network := .mainnet, bytes := List.replicate 20 2 } 6 6]
    rewards_distributed := false }

/-- Amount credited by a single balance operation (0 for the others). -/
def creditAmt : BalanceOp → Nat
  | .credit amount => amount
  | _ => 0

/-- Does the half-open interval `[range_start, range_end)` of a sample point
contain the draw `r`? -/
def containsR (r : Nat) (p : BitcoinZBurnSamplePoint) : Bool :=
  decide (p.range_start ≤ r) && decide (r < p.range_end)

/-- The sample points form a contiguous chain starting at `s` whose last
interval ends exactly at `u128::MAX`: the first point's `range_start` is `s`,
each point's `range_end` is at least its `range_start` and is the next
point's `range_start`, and the final `range_end` is `u128Max`. -/
def chainFromB : Nat → List BitcoinZBurnSamplePoint → Bool
  | _, [] => false
  | s, [p] => (p.range_start == s) && (p.range_end == u128Max)
  | s, p :: q :: rest =>
    (p.range_start == s) && decide (s ≤ p.range_end) && chainFromB p.range_end (q :: rest)

/-- The sample points form a contiguous chain starting at `s` (no condition
on the final `range_end`): the invariant of the range-assignment loop before
the last `range_end` is forced. -/
def preChainB : Nat → List BitcoinZBurnSamplePoint → Bool
  | _, [] => true
  | s, p :: rest =>
    (p.range_start == s) && decide (s ≤ p.range_end) && preChainB p.range_end rest

/-! ## Theorems -/

set_option maxRecDepth 10000

theorem halveLoop_eq_div_pow (n : Nat) : ∀ r : Nat, BTCZSRewards.halveLoop r n = r / 2 ^ n := by
  induction n with
  | zero => intro r; simp [BTCZSRewards.halveLoop]
  | succ n ih =>
    intro r
    simp only [BTCZSRewards.halveLoop]
    by_cases h : r / 2 = 0
    · have hr : r < 2 := by omega
      have h2 : (2 : Nat) ^ 1 ≤ 2 ^ (n + 1) := Nat.pow_le_pow_right (by norm_num) (by omega)
      have : r < 2 ^ (n + 1) := lt_of_lt_of_le hr (by simpa using h2)
      simp [h, Nat.div_eq_of_lt this]
    · simp only [h, if_false]
      rw [ih (r / 2), Nat.div_div_eq_div_mul]
      congr 1
      rw [pow_succ, mul_comm]

/-- C7: for every height, the block reward is `GENESIS_REWARD >> (h / HALVING_INTERVAL)`
(floored at 0 by the right shift); the reward is antitone in the height; and
`reward(k * HALVING_INTERVAL) = GENESIS_REWARD >> k`. -/
theorem block_reward_halving_schedule (h₁ h₂ k : Nat) (hle : h₁ ≤ h₂) :
    BTCZSRewards.calculate_block_reward h₁ =
      BTCZS_GENESIS_REWARD >>> (h₁ / BTCZS_HALVING_INTERVAL) ∧
    BTCZSRewards.calculate_block_reward h₂ ≤ BTCZSRewards.calculate_block_reward h₁ ∧
    BTCZSRewards.calculate_block_reward (k * BTCZS_HALVING_INTERVAL) =
      BTCZS_GENESIS_REWARD >>> k := by
  refine ⟨?_, ?_, ?_⟩
  · rw [BTCZSRewards.calculate_block_reward, halveLoop_eq_div_pow, Nat.shiftRight_eq_div_pow]
  · rw [BTCZSRewards.calculate_block_reward, BTCZSRewards.calculate_block_reward,
      halveLoop_eq_div_pow, halveLoop_eq_div_pow]
    exact Nat.div_le_div_left
      (Nat.pow_le_pow_right (by norm_num) (Nat.div_le_div_right hle)) (Nat.pos_pow_of_pos _ (by norm_num))
  · rw [BTCZSRewards.calculate_block_reward, halveLoop_eq_div_pow, Nat.shiftRight_eq_div_pow,
      Nat.mul_div_cancel _ (show 0 < BTCZS_HALVING_INTERVAL by decide)]

/-- Witness for `block_reward_halving_schedule` at heights 0 and 840000, k = 2. -/
theorem block_reward_halving_schedule_witness :
    BTCZSRewards.calculate_block_reward 0 =
      BTCZS_GENESIS_REWARD >>> (0 / BTCZS_HALVING_INTERVAL) ∧
    BTCZSRewards.calculate_block_reward 840000 ≤ BTCZSRewards.calculate_block_reward 0 ∧
    BTCZSRewards.calculate_block_reward (2 * BTCZS_HALVING_INTERVAL) =
      BTCZS_GENESIS_REWARD >>> 2 :=
  block_reward_halving_schedule 0 840000 2 (by decide)

/-- C2 (code bug): `BTCZSAccount::mint_tokens` has no supply-cap check: a
single mint of `BTCZS_TOTAL_SUPPLY + 1` microBTCZS succeeds and credits the
full amount, exceeding the declared total supply. -/
theorem mint_tokens_exceeds_total_supply :
    BTCZSAccount.mint_tokens exStacksAddr (BTCZS_TOTAL_SUPPLY + 1) 0 =
      .ok { available := BTCZS_TOTAL_SUPPLY + 1, locked := 0,
            total := BTCZS_TOTAL_SUPPLY + 1, last_updated := 0 } ∧
    BTCZS_TOTAL_SUPPLY < BTCZS_TOTAL_SUPPLY + 1 := by
  constructor
  · decide
  · omega

/-- C4 counterexample: at `total_fees = 99` the four shares sum to 96, not
99, and the network/treasury share is `9 = 99 * 10 / 100`: the integer
remainder 3 is dropped, not assigned to the treasury. -/
theorem fee_distribution_drops_remainder :
    (BTCZSFeeDistribution.from_total_fees 99).total = 96 ∧
    (BTCZSFeeDistribution.from_total_fees 99).network_fees = 9 ∧
    (96 : Nat) ≠ 99 := by
  decide

/-- C4 (amended): each share of `from_total_fees` is exactly the integer
division `total * pct / 100` for 60/25/10/5, and the shares sum to the input
minus a dropped remainder of at most 3. -/
theorem fee_distribution_shares (t : Nat) (hof : t * 60 < u128Mod) :
    (BTCZSFeeDistribution.from_total_fees t).miner_fees = t * 60 / 100 ∧
    (BTCZSFeeDistribution.from_total_fees t).stacker_fees = t * 25 / 100 ∧
    (BTCZSFeeDistribution.from_total_fees t).network_fees = t * 10 / 100 ∧
    (BTCZSFeeDistribution.from_total_fees t).burned_fees = t * 5 / 100 ∧
    (BTCZSFeeDistribution.from_total_fees t).total ≤ t ∧
    t ≤ (BTCZSFeeDistribution.from_total_fees t).total + 3 := by
  have h25 : t * 25 < u128Mod := lt_of_le_of_lt (Nat.mul_le_mul_left t (by norm_num)) hof
  have h10 : t * 10 < u128Mod := lt_of_le_of_lt (Nat.mul_le_mul_left t (by norm_num)) hof
  have h5 : t * 5 < u128Mod := lt_of_le_of_lt (Nat.mul_le_mul_left t (by norm_num)) hof
  have ht : t < u128Mod := lt_of_le_of_lt (by omega) hof
  simp only [BTCZSFeeDistribution.from_total_fees, BTCZSFeeDistribution.total,
    Nat.mod_eq_of_lt hof, Nat.mod_eq_of_lt h25, Nat.mod_eq_of_lt h10, Nat.mod_eq_of_lt h5]
  have e60 := Nat.div_add_mod (t * 60) 100
  have e25 := Nat.div_add_mod (t * 25) 100
  have e10 := Nat.div_add_mod (t * 10) 100
  have e5 := Nat.div_add_mod (t * 5) 100
  have m60 : t * 60 % 100 < 100 := Nat.mod_lt _ (by norm_num)
  have m25 : t * 25 % 100 < 100 := Nat.mod_lt _ (by norm_num)
  have m10 : t * 10 % 100 < 100 := Nat.mod_lt _ (by norm_num)
  have m5 : t * 5 % 100 < 100 := Nat.mod_lt _ (by norm_num)
  have hsum : t * 60 / 100 + t * 25 / 100 + t * 10 / 100 + t * 5 / 100 ≤ t := by omega
  rw [Nat.mod_eq_of_lt (lt_of_le_of_lt hsum ht)]
  exact ⟨trivial, trivial, trivial, trivial, hsum, by omega⟩

/-- Witness for `fee_distribution_shares` at `t = 1000`. -/
theorem fee_distribution_shares_witness :
    (BTCZSFeeDistribution.from_total_fees 1000).miner_fees = 1000 * 60 / 100 ∧
    (BTCZSFeeDistribution.from_total_fees 1000).stacker_fees = 1000 * 25 / 100 ∧
    (BTCZSFeeDistribution.from_total_fees 1000).network_fees = 1000 * 10 / 100 ∧
    (BTCZSFeeDistribution.from_total_fees 1000).burned_fees = 1000 * 5 / 100 ∧
    (BTCZSFeeDistribution.from_total_fees 1000).total ≤ 1000 ∧
    1000 ≤ (BTCZSFeeDistribution.from_total_fees 1000).total + 3 :=
  fee_distribution_shares 1000 (by decide)

/-- C5 (code bug): the Base58Check round trip fails for every 20-byte-hash
address, because `base58_encode` folds the 25-byte payload into a Rust
`u128` accumulator, truncating it mod 2^128 (in a debug build the very same
addition panics on overflow); decoding the resulting short string yields
fewer than 25 bytes and `InvalidByteSequence`.  Shown at a concrete mainnet
P2PKH address. -/
theorem base58check_roundtrip_fails :
    from_base58check (to_base58check exMainnetAddr) .mainnet =
      .error .invalidByteSequence ∧
    from_base58check (to_base58check exMainnetAddr) .mainnet ≠ .ok exMainnetAddr := by
  constructor
  · decide
  · decide

/-- C9: a cycle not yet distributed: the first `distribute_rewards` call
succeeds and sets `rewards_distributed`; a second call on the resulting
cycle fails with `InvalidStacksBlock("Rewards already distributed")` and, the
source returning `Err` before touching any field, the cycle state is
unchanged. -/
theorem distribute_rewards_idempotent (c : BTCZSRewardCycle)
    (hc : c.rewards_distributed = false) :
    (BTCZSRewardCycle.distribute_rewards c).isOk = true ∧
    (BTCZSRewardCycle.stepDistribute c).rewards_distributed = true ∧
    BTCZSRewardCycle.distribute_rewards (BTCZSRewardCycle.stepDistribute c) =
      .error (ChainErr.invalidStacksBlock "Rewards already distributed") ∧
    BTCZSRewardCycle.stepDistribute (BTCZSRewardCycle.stepDistribute c) =
      BTCZSRewardCycle.stepDistribute c := by
  simp only [BTCZSRewardCycle.stepDistribute, BTCZSRewardCycle.distribute_rewards, hc,
    Bool.false_eq_true, if_false, Except.isOk, Except.toBool]
  simp

/-- Witness for `distribute_rewards_idempotent` at the one-stacker cycle. -/
theorem distribute_rewards_idempotent_witness :
    (BTCZSRewardCycle.distribute_rewards exCycle).isOk = true ∧
    (BTCZSRewardCycle.stepDistribute exCycle).rewards_distributed = true ∧
    BTCZSRewardCycle.distribute_rewards (BTCZSRewardCycle.stepDistribute exCycle) =
      .error (ChainErr.invalidStacksBlock "Rewards already distributed") ∧
    BTCZSRewardCycle.stepDistribute (BTCZSRewardCycle.stepDistribute exCycle) =
      BTCZSRewardCycle.stepDistribute exCycle :=
  distribute_rewards_idempotent exCycle rfl

theorem parse_loop_no_ops (hdr : BurnchainBlockHeader) (txs : List BitcoinZTransaction) :
    ∀ acc : List BitcoinZBurnOperation,
      txs.foldl (fun acc tx =>
        match BitcoinZBurnOperation.parse_from_tx tx hdr.block_height hdr.block_hash with
        | .ok (some op) => if op.check.isOk then acc ++ [op] else acc
        | _ => acc) acc = acc := by
  induction txs with
  | nil => intro acc; rfl
  | cons tx rest ih => intro acc; exact ih acc

/-- C10: `BitcoinZBurnOperation::parse_from_tx` returns `Ok(None)` for every
transaction, so `process_bitcoinz_block` always yields an empty op set, an
empty burn distribution, zero block burns, and a snapshot without sortition
whose winning txid and winning block hash are the all-zero 32-byte values. -/
theorem process_block_always_empty (parent : BlockSnapshot)
    (hdr : BurnchainBlockHeader) (txs : List BitcoinZTransaction) :
    (∀ tx h hh, BitcoinZBurnOperation.parse_from_tx tx h hh = .ok none) ∧
    (process_bitcoinz_block parent hdr txs).2.bitcoinz_ops = [] ∧
    (process_bitcoinz_block parent hdr txs).2.burn_dist = [] ∧
    (process_bitcoinz_block parent hdr txs).2.total_burns = 0 ∧
    (process_bitcoinz_block parent hdr txs).1.sortition = false ∧
    (process_bitcoinz_block parent hdr txs).1.winning_block_txid = zeros32 ∧
    (process_bitcoinz_block parent hdr txs).1.winning_stacks_block_hash = zeros32 := by
  have hops := parse_loop_no_ops hdr txs []
  refine ⟨fun _ _ _ => rfl, ?_, ?_, ?_, ?_, ?_, ?_⟩ <;>
    simp [process_bitcoinz_block, hops, from_bitcoinz_ops, leaderCommitsOf,
      make_bitcoinz_distribution, make_bitcoinz_snapshot]

theorem satFoldAux (l : List BitcoinZBurnOperation) :
    ∀ acc : Nat, acc ≤ u64Max →
      l.foldl burnsStep acc = min (acc + opsBurnSum l) u64Max := by
  induction l with
  | nil =>
    intro acc h
    simp [opsBurnSum]
    omega
  | cons op rest ih =>
    intro acc h
    cases op with
    | leaderBlockCommit c =>
      simp only [List.foldl, burnsStep, opsBurnSum, List.map_cons, List.sum_cons,
        BitcoinZBurnOperation.burn_amount]
      rw [ih (satAdd64 acc c.burn_fee) (min_le_right _ _)]
      simp only [satAdd64, opsBurnSum]
      omega
    | burn b =>
      simp only [List.foldl, burnsStep, opsBurnSum, List.map_cons, List.sum_cons,
        BitcoinZBurnOperation.burn_amount]
      rw [ih (satAdd64 acc b.burn_amount) (min_le_right _ _)]
      simp only [satAdd64, opsBurnSum]
      omega
    | stackStx s =>
      simp only [List.foldl, burnsStep, opsBurnSum, List.map_cons, List.sum_cons,
        BitcoinZBurnOperation.burn_amount, Nat.zero_add]
      exact ih acc h

theorem total_burns_eq_satsum (ops : List BitcoinZBurnOperation) :
    (from_bitcoinz_ops ops).total_burns = min (opsBurnSum ops) u64Max := by
  simpa using satFoldAux ops 0 (by simp [u64Max])

/-- C6 (amended): the per-block burn total is the saturating u64 sum of the
burn amounts of `LeaderCommit` and `Burn` ops (`StackLock` contributes 0);
the snapshot's cumulative `total_burn` is the plain (unchecked, wrapping)
u64 addition of the parent total and that per-block total, which agrees with
the saturating sum exactly when it does not overflow; `num_sortitions` adds
1 when a winner exists. -/
theorem snapshot_counters (parent : BlockSnapshot) (hdr : BurnchainBlockHeader)
    (ops : List BitcoinZBurnOperation)
    (hb : parent.total_burn + (from_bitcoinz_ops ops).total_burns < u64Mod)
    (hs : parent.num_sortitions + 1 < u64Mod) :
    (from_bitcoinz_ops ops).total_burns = min (opsBurnSum ops) u64Max ∧
    (make_bitcoinz_snapshot parent hdr (from_bitcoinz_ops ops)).total_burn =
      parent.total_burn + (from_bitcoinz_ops ops).total_burns ∧
    (make_bitcoinz_snapshot parent hdr (from_bitcoinz_ops ops)).num_sortitions =
      parent.num_sortitions +
        (if (make_bitcoinz_snapshot parent hdr (from_bitcoinz_ops ops)).sortition
          then 1 else 0) := by
  refine ⟨total_burns_eq_satsum ops, ?_, ?_⟩
  · simp only [make_bitcoinz_snapshot]
    exact Nat.mod_eq_of_lt hb
  · simp only [make_bitcoinz_snapshot]
    by_cases hd : (from_bitcoinz_ops ops).burn_dist.isEmpty
    · simp only [hd, Bool.not_true, Bool.false_eq_true, if_false]
      exact Nat.mod_eq_of_lt (by omega)
    · simp only [Bool.not_eq_true'] at hd
      simp only [hd, Bool.not_false, if_true]
      exact Nat.mod_eq_of_lt hs

/-- Witness for `snapshot_counters` at a single minimum burn op and the
zeroed parent. -/
theorem snapshot_counters_witness :
    (from_bitcoinz_ops [exBurnOp1000]).total_burns = min (opsBurnSum [exBurnOp1000]) u64Max ∧
    (make_bitcoinz_snapshot exParentSnapshot exBlockHeader
        (from_bitcoinz_ops [exBurnOp1000])).total_burn =
      exParentSnapshot.total_burn + (from_bitcoinz_ops [exBurnOp1000]).total_burns ∧
    (make_bitcoinz_snapshot exParentSnapshot exBlockHeader
        (from_bitcoinz_ops [exBurnOp1000])).num_sortitions =
      exParentSnapshot.num_sortitions +
        (if (make_bitcoinz_snapshot exParentSnapshot exBlockHeader
              (from_bitcoinz_ops [exBurnOp1000])).sortition
          then 1 else 0) :=
  snapshot_counters exParentSnapshot exBlockHeader [exBurnOp1000] (by decide) (by decide)

/-- C6 counterexample: with the parent's cumulative burn at `u64::MAX` and a
validated minimum burn of 1000, the snapshot's unchecked addition wraps to
999 (overflow; a debug build panics on the same addition), whereas the
claimed saturating addition would give `u64::MAX`. -/
theorem snapshot_total_burn_not_saturating :
    (make_bitcoinz_snapshot exParentMax exBlockHeader
        (from_bitcoinz_ops [exBurnOp1000])).total_burn = 999 ∧
    satAdd64 u64Max 1000 = u64Max ∧
    (999 : Nat) ≠ u64Max := by
  refine ⟨by decide, by decide, by decide⟩

/-- C1 (code bug): with two validated leader commits (burn fees 3000 and
1000) the snapshot records the first candidate's txid as winner even though
the drawn value `r = u128::MAX - 1` lies in the second candidate's
`[range_start, range_end)`: `make_bitcoinz_snapshot` never consults `r`
("Simplified: pick first for now"). -/
theorem winner_ignores_sortition_draw :
    ((mkExCommit 3000 1).check).isOk = true ∧
    ((mkExCommit 1000 2).check).isOk = true ∧
    ((from_bitcoinz_ops exTwoCommitOps).burn_dist.getD 1 dfltSamplePoint).candidate.txid =
      (mkExCommit 1000 2).txid ∧
    ((from_bitcoinz_ops exTwoCommitOps).burn_dist.getD 1 dfltSamplePoint).range_start ≤ exDrawR ∧
    exDrawR < ((from_bitcoinz_ops exTwoCommitOps).burn_dist.getD 1 dfltSamplePoint).range_end ∧
    (make_bitcoinz_snapshot exParentSnapshot exBlockHeader
        (from_bitcoinz_ops exTwoCommitOps)).winning_block_txid = (mkExCommit 3000 1).txid ∧
    (mkExCommit 3000 1).txid ≠ (mkExCommit 1000 2).txid := by
  refine ⟨by decide, by decide, by decide, by decide, by decide, by decide, by decide⟩

theorem balanceStep_inv (b : BTCZSBalance) (op : BalanceOp)
    (hb : b.total = b.available + b.locked)
    (hbound : b.available + b.locked + creditAmt op < u128Mod) :
    (applyBalanceOpOrKeep b op).total =
      (applyBalanceOpOrKeep b op).available + (applyBalanceOpOrKeep b op).locked ∧
    (applyBalanceOpOrKeep b op).available + (applyBalanceOpOrKeep b op).locked ≤
      b.available + b.locked + creditAmt op := by
  cases op with
  | debit amount =>
    simp only [creditAmt] at hbound ⊢
    by_cases hcan : amount ≤ b.available
    · have heq : applyBalanceOpOrKeep b (.debit amount) =
          { b with available := b.available - amount,
                   total := (b.available - amount + b.locked) % u128Mod } := by
        simp [applyBalanceOpOrKeep, applyBalanceOp, BTCZSBalance.debit,
          BTCZSBalance.can_transfer, hcan]
      rw [heq]
      simp [Nat.mod_eq_of_lt (show b.available - amount + b.locked < u128Mod by omega)]
    · have heq : applyBalanceOpOrKeep b (.debit amount) = b := by
        simp [applyBalanceOpOrKeep, applyBalanceOp, BTCZSBalance.debit,
          BTCZSBalance.can_transfer, hcan]
      rw [heq]
      exact ⟨hb, by omega⟩
  | credit amount =>
    simp only [creditAmt] at hbound ⊢
    have heq : applyBalanceOpOrKeep b (.credit amount) =
        { b with available := (b.available + amount) % u128Mod,
                 total := ((b.available + amount) % u128Mod + b.locked) % u128Mod } := by
      simp [applyBalanceOpOrKeep, applyBalanceOp, BTCZSBalance.credit]
    rw [heq]
    have h1 : b.available + amount < u128Mod := by omega
    simp [Nat.mod_eq_of_lt h1,
      Nat.mod_eq_of_lt (show b.available + amount + b.locked < u128Mod by omega)]
    omega
  | lock amount =>
    simp only [creditAmt] at hbound ⊢
    by_cases hcan : amount ≤ b.available
    · have heq : applyBalanceOpOrKeep b (.lock amount) =
          { b with available := b.available - amount,
                   locked := (b.locked + amount) % u128Mod,
                   total := (b.available - amount + (b.locked + amount) % u128Mod) % u128Mod } := by
        simp [applyBalanceOpOrKeep, applyBalanceOp, BTCZSBalance.lock_for_stacking,
          BTCZSBalance.can_transfer, hcan]
      rw [heq]
      have h1 : b.locked + amount < u128Mod := by omega
      simp [Nat.mod_eq_of_lt h1,
        Nat.mod_eq_of_lt (show b.available - amount + (b.locked + amount) < u128Mod by omega)]
      omega
    · have heq : applyBalanceOpOrKeep b (.lock amount) = b := by
        simp [applyBalanceOpOrKeep, applyBalanceOp, BTCZSBalance.lock_for_stacking,
          BTCZSBalance.can_transfer, hcan]
      rw [heq]
      exact ⟨hb, by omega⟩
  | unlock amount =>
    simp only [creditAmt] at hbound ⊢
    by_cases hcan : b.locked < amount
    · have heq : applyBalanceOpOrKeep b (.unlock amount) = b := by
        simp [applyBalanceOpOrKeep, applyBalanceOp, BTCZSBalance.unlock_from_stacking, hcan]
      rw [heq]
      exact ⟨hb, by omega⟩
    · have heq : applyBalanceOpOrKeep b (.unlock amount) =
          { b with available := (b.available + amount) % u128Mod,
                   locked := b.locked - amount,
                   total := ((b.available + amount) % u128Mod + (b.locked - amount)) % u128Mod } := by
        simp [applyBalanceOpOrKeep, applyBalanceOp, BTCZSBalance.unlock_from_stacking, hcan]
      rw [heq]
      have h1 : b.available + amount < u128Mod := by omega
      simp [Nat.mod_eq_of_lt h1,
        Nat.mod_eq_of_lt (show b.available + amount + (b.locked - amount) < u128Mod by omega)]
      omega

theorem applyOps_invariant (ops : List BalanceOp) : ∀ b : BTCZSBalance,
    b.total = b.available + b.locked →
    b.available + b.locked + creditSum ops < u128Mod →
    (applyBalanceOps b ops).total =
      (applyBalanceOps b ops).available + (applyBalanceOps b ops).locked := by
  induction ops with
  | nil =>
    intro b hb _
    simpa [applyBalanceOps] using hb
  | cons op rest ih =>
    intro b hb hbound
    have hA : creditSum (op :: rest) = creditAmt op + creditSum rest := by
      cases op <;> simp [creditSum, creditAmt]
    rw [hA] at hbound
    have hstep := balanceStep_inv b op hb (by omega)
    have hfold : applyBalanceOps b (op :: rest) =
        applyBalanceOps (applyBalanceOpOrKeep b op) rest := by
      simp [applyBalanceOps, List.foldl]
    rw [hfold]
    exact ih _ hstep.1 (by omega)

/-- C8: starting from a constructor-built balance, any sequence of
debit/credit/lock/unlock operations preserves `total = available + locked`
(components are `Nat`, hence non-negative); a debit or lock of more than
`available` fails with the insufficient-balance error and leaves the balance
unchanged, as does an unlock of more than `locked`.  The hypothesis bounds
the u128 arithmetic: constructor inputs plus all credited amounts stay below
2^128, which every type-legal non-overflowing Rust run satisfies. -/
theorem balance_invariant_and_guards (a l h0 : Nat) (ops : List BalanceOp)
    (c : BTCZSBalance) (m₁ m₂ m₃ : Nat)
    (hwf : a + l + creditSum ops < u128Mod)
    (h₁ : c.available < m₁) (h₂ : c.available < m₂) (h₃ : c.locked < m₃) :
    (applyBalanceOps (BTCZSBalance.new a l h0) ops).total =
      (applyBalanceOps (BTCZSBalance.new a l h0) ops).available +
        (applyBalanceOps (BTCZSBalance.new a l h0) ops).locked ∧
    0 ≤ (applyBalanceOps (BTCZSBalance.new a l h0) ops).available ∧
    0 ≤ (applyBalanceOps (BTCZSBalance.new a l h0) ops).locked ∧
    BTCZSBalance.debit c m₁ =
      .error (ChainErr.invalidStacksBlock "Insufficient balance") ∧
    applyBalanceOpOrKeep c (.debit m₁) = c ∧
    BTCZSBalance.lock_for_stacking c m₂ =
      .error (ChainErr.invalidStacksBlock "Insufficient balance") ∧
    applyBalanceOpOrKeep c (.lock m₂) = c ∧
    BTCZSBalance.unlock_from_stacking c m₃ =
      .error (ChainErr.invalidStacksBlock "Insufficient balance") ∧
    applyBalanceOpOrKeep c (.unlock m₃) = c := by
  have hd : BTCZSBalance.debit c m₁ =
      .error (ChainErr.invalidStacksBlock "Insufficient balance") := by
    simp [BTCZSBalance.debit, BTCZSBalance.can_transfer]
    omega
  have hl : BTCZSBalance.lock_for_stacking c m₂ =
      .error (ChainErr.invalidStacksBlock "Insufficient balance") := by
    simp [BTCZSBalance.lock_for_stacking, BTCZSBalance.can_transfer]
    omega
  have hu : BTCZSBalance.unlock_from_stacking c m₃ =
      .error (ChainErr.invalidStacksBlock "Insufficient balance") := by
    simp [BTCZSBalance.unlock_from_stacking]
    omega
  refine ⟨?_, Nat.zero_le _, Nat.zero_le _, hd, ?_, hl, ?_, hu, ?_⟩
  · apply applyOps_invariant
    · simp [BTCZSBalance.new, Nat.mod_eq_of_lt (show a + l < u128Mod by omega)]
    · simp [BTCZSBalance.new]
      omega
  · simp [applyBalanceOpOrKeep, applyBalanceOp, hd]
  · simp [applyBalanceOpOrKeep, applyBalanceOp, hl]
  · simp [applyBalanceOpOrKeep, applyBalanceOp, hu]

/-- Witness for `balance_invariant_and_guards` on a five-operation run. -/
theorem balance_invariant_and_guards_witness :
    (applyBalanceOps (BTCZSBalance.new 5 5 0)
        [.credit 3, .debit 2, .lock 4, .unlock 1, .debit 100]).total =
      (applyBalanceOps (BTCZSBalance.new 5 5 0)
        [.credit 3, .debit 2, .lock 4, .unlock 1, .debit 100]).available +
        (applyBalanceOps (BTCZSBalance.new 5 5 0)
          [.credit 3, .debit 2, .lock 4, .unlock 1, .debit 100]).locked ∧
    0 ≤ (applyBalanceOps (BTCZSBalance.new 5 5 0)
        [.credit 3, .debit 2, .lock 4, .unlock 1, .debit 100]).available ∧
    0 ≤ (applyBalanceOps (BTCZSBalance.new 5 5 0)
        [.credit 3, .debit 2, .lock 4, .unlock 1, .debit 100]).locked ∧
    BTCZSBalance.debit { available := 10, locked := 7, total := 17, last_updated := 0 } 11 =
      .error (ChainErr.invalidStacksBlock "Insufficient balance") ∧
    applyBalanceOpOrKeep { available := 10, locked := 7, total := 17, last_updated := 0 }
      (.debit 11) = { available := 10, locked := 7, total := 17, last_updated := 0 } ∧
    BTCZSBalance.lock_for_stacking
        { available := 10, locked := 7, total := 17, last_updated := 0 } 12 =
      .error (ChainErr.invalidStacksBlock "Insufficient balance") ∧
    applyBalanceOpOrKeep { available := 10, locked := 7, total := 17, last_updated := 0 }
      (.lock 12) = { available := 10, locked := 7, total := 17, last_updated := 0 } ∧
    BTCZSBalance.unlock_from_stacking
        { available := 10, locked := 7, total := 17, last_updated := 0 } 8 =
      .error (ChainErr.invalidStacksBlock "Insufficient balance") ∧
    applyBalanceOpOrKeep { available := 10, locked := 7, total := 17, last_updated := 0 }
      (.unlock 8) = { available := 10, locked := 7, total := 17, last_updated := 0 } :=
  balance_invariant_and_guards 5 5 0 [.credit 3, .debit 2, .lock 4, .unlock 1, .debit 100]
    { available := 10, locked := 7, total := 17, last_updated := 0 } 11 12 8
    (by decide) (by decide) (by decide) (by decide)

theorem totalBurnOf_aux (l : List BitcoinZLeaderBlockCommitOp) :
    ∀ acc : Nat, acc + (l.map (·.burn_fee)).sum < u128Mod →
      l.foldl (fun acc c => (acc + c.burn_fee) % u128Mod) acc =
        acc + (l.map (·.burn_fee)).sum := by
  induction l with
  | nil => intro acc _; simp
  | cons c rest ih =>
    intro acc hacc
    simp only [List.map_cons, List.sum_cons] at hacc
    simp only [List.foldl, List.map_cons, List.sum_cons]
    rw [Nat.mod_eq_of_lt (by omega), ih (acc + c.burn_fee) (by omega)]
    omega

theorem totalBurnOf_eq (cands : List BitcoinZLeaderBlockCommitOp)
    (h : (cands.map (·.burn_fee)).sum < u128Mod) :
    totalBurnOf cands = (cands.map (·.burn_fee)).sum := by
  simpa using totalBurnOf_aux cands 0 (by omega)

theorem assignRanges_length (B : Nat) :
    ∀ (s : Nat) (l : List BitcoinZBurnSamplePoint),
      (assignRanges B s l).length = l.length := by
  intro s l
  induction l generalizing s with
  | nil => rfl
  | cons p rest ih => simp [assignRanges, ih]

theorem forceLastEnd_length :
    ∀ l : List BitcoinZBurnSamplePoint, (forceLastEnd l).length = l.length := by
  intro l
  induction l with
  | nil => rfl
  | cons p rest ih =>
    cases rest with
    | nil => rfl
    | cons q rest' => simpa [forceLastEnd] using ih

theorem assignRanges_map_candidate (B : Nat) :
    ∀ (s : Nat) (l : List BitcoinZBurnSamplePoint),
      (assignRanges B s l).map (·.candidate) = l.map (·.candidate) := by
  intro s l
  induction l generalizing s with
  | nil => rfl
  | cons p rest ih => simp [assignRanges, ih]

theorem forceLastEnd_map_candidate :
    ∀ l : List BitcoinZBurnSamplePoint,
      (forceLastEnd l).map (·.candidate) = l.map (·.candidate) := by
  intro l
  induction l with
  | nil => rfl
  | cons p rest ih =>
    cases rest with
    | nil => rfl
    | cons q rest' => simpa [forceLastEnd] using ih

theorem assignRanges_burn_candidate (B : Nat) :
    ∀ (s : Nat) (l : List BitcoinZBurnSamplePoint),
      (∀ p ∈ l, p.burn_amount = p.candidate.burn_fee) →
      ∀ p ∈ assignRanges B s l, p.burn_amount = p.candidate.burn_fee := by
  intro s l
  induction l generalizing s with
  | nil => intro _ p hp; simp [assignRanges] at hp
  | cons p rest ih =>
    intro hl pp hpp
    simp only [assignRanges, List.mem_cons] at hpp
    rcases hpp with h | h
    · subst h
      exact hl p (by simp)
    · exact ih _ (fun x hx => hl x (by simp [hx])) pp h

theorem forceLastEnd_burn_candidate :
    ∀ l : List BitcoinZBurnSamplePoint,
      (∀ p ∈ l, p.burn_amount = p.candidate.burn_fee) →
      ∀ p ∈ forceLastEnd l, p.burn_amount = p.candidate.burn_fee := by
  intro l
  induction l with
  | nil => intro _ p hp; simp [forceLastEnd] at hp
  | cons p rest ih =>
    intro hl pp hpp
    cases rest with
    | nil =>
      simp only [forceLastEnd, List.mem_singleton] at hpp
      subst hpp
      exact hl p (by simp)
    | cons q rest' =>
      simp only [forceLastEnd, List.mem_cons] at hpp
      rcases hpp with h | h
      · subst h
        exact hl _ (by simp)
      · exact ih (fun x hx => hl x (by simp [hx])) pp h

theorem assignRanges_preChain (B : Nat) :
    ∀ (l : List BitcoinZBurnSamplePoint) (s : Nat), s ≤ u128Max →
      preChainB s (assignRanges B s l) = true := by
  intro l
  induction l with
  | nil => intro s _; rfl
  | cons p rest ih =>
    intro s hs
    simp only [assignRanges, preChainB, Bool.and_eq_true, beq_iff_eq, decide_eq_true_eq]
    refine ⟨⟨trivial, ?_⟩, ?_⟩
    · simp only [satAdd128, u128Max] at *
      omega
    · exact ih _ (by simp only [satAdd128, u128Max] at *; omega)

theorem forceLastEnd_chain :
    ∀ (l : List BitcoinZBurnSamplePoint) (s : Nat), l ≠ [] →
      preChainB s l = true → chainFromB s (forceLastEnd l) = true := by
  intro l
  induction l with
  | nil => intro s h _; exact absurd rfl h
  | cons p rest ih =>
    intro s _ hpre
    cases rest with
    | nil =>
      simp only [preChainB, Bool.and_eq_true, beq_iff_eq] at hpre
      simp [forceLastEnd, chainFromB, hpre.1.1]
    | cons q rest' =>
      simp only [preChainB, Bool.and_eq_true, beq_iff_eq, decide_eq_true_eq] at hpre
      have hinner : preChainB p.range_end (q :: rest') = true := by
        simp only [preChainB, Bool.and_eq_true, beq_iff_eq, decide_eq_true_eq]
        exact hpre.2
      have hne : forceLastEnd (q :: rest') ≠ [] := by
        cases rest' <;> simp [forceLastEnd]
      obtain ⟨q', t, heq⟩ : ∃ q' t, forceLastEnd (q :: rest') = q' :: t := by
        cases h : forceLastEnd (q :: rest') with
        | nil => exact absurd h hne
        | cons a b => exact ⟨a, b, rfl⟩
      have hrec := ih p.range_end (by simp) hinner
      rw [heq] at hrec
      show chainFromB s (p :: forceLastEnd (q :: rest')) = true
      rw [heq]
      simp only [chainFromB, Bool.and_eq_true, beq_iff_eq, decide_eq_true_eq]
      exact ⟨⟨hpre.1.1, hpre.1.2⟩, hrec⟩

theorem chain_count_zero (l : List BitcoinZBurnSamplePoint) :
    ∀ s r : Nat, chainFromB s l = true → r < s →
      l.countP (containsR r) = 0 := by
  induction l with
  | nil => intro s r _ _; rfl
  | cons p rest ih =>
    intro s r hc hr
    cases rest with
    | nil =>
      simp only [chainFromB, Bool.and_eq_true, beq_iff_eq] at hc
      have hp : containsR r p = false := by
        simp only [containsR, Bool.and_eq_false_iff, decide_eq_false_iff_not, Nat.not_le]
        left
        omega
      simp [List.countP_cons, hp]
    | cons q rest' =>
      simp only [chainFromB, Bool.and_eq_true, beq_iff_eq, decide_eq_true_eq] at hc
      have hp : containsR r p = false := by
        simp only [containsR, Bool.and_eq_false_iff, decide_eq_false_iff_not, Nat.not_le]
        left
        omega
      rw [List.countP_cons, hp]
      simp only [Bool.false_eq_true, if_false, Nat.add_zero]
      exact ih p.range_end r hc.2 (by omega)

theorem chain_count_one (l : List BitcoinZBurnSamplePoint) :
    ∀ s r : Nat, chainFromB s l = true → s ≤ r → r < u128Max →
      l.countP (containsR r) = 1 := by
  induction l with
  | nil => intro s r hc _ _; simp [chainFromB] at hc
  | cons p rest ih =>
    intro s r hc hsr hr
    cases rest with
    | nil =>
      simp only [chainFromB, Bool.and_eq_true, beq_iff_eq] at hc
      have hp : containsR r p = true := by
        simp only [containsR, Bool.and_eq_true, decide_eq_true_eq]
        omega
      simp [List.countP_cons, hp]
    | cons q rest' =>
      simp only [chainFromB, Bool.and_eq_true, beq_iff_eq, decide_eq_true_eq] at hc
      by_cases hre : r < p.range_end
      · have hp : containsR r p = true := by
          simp only [containsR, Bool.and_eq_true, decide_eq_true_eq]
          omega
        have hz := chain_count_zero (q :: rest') p.range_end r hc.2 hre
        rw [List.countP_cons, hz, hp]
        simp
      · have hp : containsR r p = false := by
          simp only [containsR, Bool.and_eq_false_iff, decide_eq_false_iff_not, Nat.not_le]
          right
          omega
        rw [List.countP_cons, hp]
        simp only [Bool.false_eq_true, if_false, Nat.add_zero]
        exact ih p.range_end r hc.2 (by omega) hr

theorem assignRanges_width_mem (B : Nat) (hB : 0 < B) :
    ∀ (l : List BitcoinZBurnSamplePoint) (c : Nat),
      c + (l.map (·.burn_amount)).sum ≤ B →
      ∀ p ∈ assignRanges B (c * (u128Max / B)) l,
        p.range_end - p.range_start = p.burn_amount * (u128Max / B) := by
  intro l
  induction l with
  | nil => intro c _ p hp; simp [assignRanges] at hp
  | cons p rest ih =>
    intro c hbound pp hpp
    have hple : p.burn_amount ≤ B := by
      simp only [List.map_cons, List.sum_cons] at hbound
      omega
    have hqB : B * (u128Max / B) ≤ u128Max := by
      rw [mul_comm]
      exact Nat.div_mul_le_self u128Max B
    have hmul : p.burn_amount * (u128Max / B) ≤ u128Max :=
      le_trans (Nat.mul_le_mul_right _ hple) hqB
    have hcsum : (c + p.burn_amount) * (u128Max / B) ≤ u128Max :=
      le_trans (Nat.mul_le_mul_right _ (by
        simp only [List.map_cons, List.sum_cons] at hbound
        omega)) hqB
    have hprop : (if B > 0 then satMul128 p.burn_amount (u128Max / B) else 0) =
        p.burn_amount * (u128Max / B) := by
      simp [hB, satMul128, Nat.min_eq_left hmul]
    have hend : satAdd128 (c * (u128Max / B)) (p.burn_amount * (u128Max / B)) =
        (c + p.burn_amount) * (u128Max / B) := by
      simp only [satAdd128, Nat.add_mul] at *
      omega
    simp only [assignRanges, hprop, hend, List.mem_cons] at hpp
    rcases hpp with h | h
    · subst h
      simp only [Nat.add_mul]
      omega
    · have hrest : (c + p.burn_amount) + (rest.map (·.burn_amount)).sum ≤ B := by
        simp only [List.map_cons, List.sum_cons] at hbound
        omega
      exact ih (c + p.burn_amount) hrest pp h

theorem forceLastEnd_dropLast :
    ∀ l : List BitcoinZBurnSamplePoint, (forceLastEnd l).dropLast = l.dropLast := by
  intro l
  induction l with
  | nil => rfl
  | cons p rest ih =>
    cases rest with
    | nil => rfl
    | cons q rest' =>
      have hne : forceLastEnd (q :: rest') ≠ [] := by
        cases rest' <;> simp [forceLastEnd]
      obtain ⟨q', t, heq⟩ : ∃ q' t, forceLastEnd (q :: rest') = q' :: t := by
        cases h : forceLastEnd (q :: rest') with
        | nil => exact absurd h hne
        | cons a b => exact ⟨a, b, rfl⟩
      show (p :: forceLastEnd (q :: rest')).dropLast = (p :: q :: rest').dropLast
      rw [heq, List.dropLast_cons₂, ← heq, ih, ← List.dropLast_cons₂]

/-- C3 (amended): for a non-empty candidate list with positive total burn
(and the u128-representable total every Rust run has), the distribution has
one point per candidate in order; each point's `burn_amount` is its
candidate's `burn_fee`; the ranges form a contiguous chain from 0 whose last
`range_end` is forced to `u128::MAX`; every point except the last has width
exactly `burn_amount * (u128::MAX / total)`, so among non-last candidates a
larger burn fee means a proportionally wider range (the forced last range
can exceed its proportional width); and every draw `r < u128::MAX` falls in
exactly one half-open `[range_start, range_end)` (`u128::MAX` itself falls
in none, the last interval being half-open). -/
theorem make_distribution_partition
    (cands : List BitcoinZLeaderBlockCommitOp) (d : List BitcoinZBurnSamplePoint) (B : Nat)
    (hd : d = make_bitcoinz_distribution 6 cands)
    (hB : B = (cands.map (·.burn_fee)).sum)
    (hne : cands ≠ []) (hsum : B < u128Mod) (hpos : 0 < B) :
    d.length = cands.length ∧
    d.map (·.candidate) = cands ∧
    (∀ p ∈ d, p.burn_amount = p.candidate.burn_fee) ∧
    chainFromB 0 d = true ∧
    (∀ p ∈ d.dropLast, p.range_end - p.range_start = p.burn_amount * (u128Max / B)) ∧
    (∀ p ∈ d.dropLast, ∀ w ∈ d.dropLast, w.burn_amount ≤ p.burn_amount →
      w.range_end - w.range_start ≤ p.range_end - p.range_start) ∧
    (∀ r : Nat, r < u128Max → d.countP (containsR r) = 1) := by
  subst hd hB
  have h1 : cands.isEmpty = false := by
    cases cands with
    | nil => exact absurd rfl hne
    | cons a b => rfl
  have hBval : totalBurnOf cands = (cands.map (·.burn_fee)).sum := totalBurnOf_eq cands hsum
  have hnz : ¬ totalBurnOf cands = 0 := by omega
  have hdist : make_bitcoinz_distribution 6 cands =
      forceLastEnd (assignRanges (totalBurnOf cands) 0 (mkSamplePoints cands)) := by
    simp [make_bitcoinz_distribution, h1, hnz]
  have hmapburn : (mkSamplePoints cands).map (·.burn_amount) = cands.map (·.burn_fee) := by
    simp [mkSamplePoints, BitcoinZBurnSamplePoint.new, List.map_map, Function.comp]
  have hmapcand : (mkSamplePoints cands).map (·.candidate) = cands := by
    simp [mkSamplePoints, BitcoinZBurnSamplePoint.new, List.map_map, Function.comp_def]
  have hlenS : (mkSamplePoints cands).length = cands.length := by
    simp [mkSamplePoints]
  have hassne : assignRanges (totalBurnOf cands) 0 (mkSamplePoints cands) ≠ [] := by
    apply List.ne_nil_of_length_pos
    rw [assignRanges_length, hlenS]
    exact List.length_pos.mpr hne
  have hchain : chainFromB 0 (make_bitcoinz_distribution 6 cands) = true := by
    rw [hdist]
    exact forceLastEnd_chain _ 0 hassne
      (assignRanges_preChain _ _ 0 (Nat.zero_le _))
  have hwidth : ∀ p ∈ (make_bitcoinz_distribution 6 cands).dropLast,
      p.range_end - p.range_start =
        p.burn_amount * (u128Max / (cands.map (·.burn_fee)).sum) := by
    intro p hp
    rw [hdist, forceLastEnd_dropLast] at hp
    have hp' : p ∈ assignRanges (totalBurnOf cands) 0 (mkSamplePoints cands) :=
      List.dropLast_subset _ hp
    have hw := assignRanges_width_mem (totalBurnOf cands) (by omega) (mkSamplePoints cands) 0
      (by rw [hmapburn]; omega)
    rw [zero_mul] at hw
    rw [← hBval]
    exact hw p hp'
  refine ⟨?_, ?_, ?_, hchain, hwidth, ?_, ?_⟩
  · rw [hdist, forceLastEnd_length, assignRanges_length, hlenS]
  · rw [hdist, forceLastEnd_map_candidate, assignRanges_map_candidate, hmapcand]
  · rw [hdist]
    apply forceLastEnd_burn_candidate
    apply assignRanges_burn_candidate
    intro p hp
    simp only [mkSamplePoints, List.mem_map] at hp
    obtain ⟨c, _, rfl⟩ := hp
    rfl
  · intro p hp w hw hle
    rw [hwidth p hp, hwidth w hw]
    exact Nat.mul_le_mul_right _ hle
  · intro r hr
    exact chain_count_one _ 0 r hchain (Nat.zero_le r) hr

/-- C3 counterexample: with validated burn fees `2^64 - 1` and `2^64 - 2`,
the last candidate — whose burn fee is smaller — receives the wider range,
because its `range_end` is forced to `u128::MAX`, absorbing the rounding gap
(here `2^64 - 1` wide); moreover the 128-bit value `u128::MAX` falls in no
half-open `[range_start, range_end)` at all. -/
theorem distribution_width_not_monotone :
    ((make_bitcoinz_distribution 6 exC3Cands).getD 0 dfltSamplePoint).burn_amount = 2 ^ 64 - 1 ∧
    ((make_bitcoinz_distribution 6 exC3Cands).getD 1 dfltSamplePoint).burn_amount = 2 ^ 64 - 2 ∧
    ((make_bitcoinz_distribution 6 exC3Cands).getD 0 dfltSamplePoint).range_end -
        ((make_bitcoinz_distribution 6 exC3Cands).getD 0 dfltSamplePoint).range_start <
      ((make_bitcoinz_distribution 6 exC3Cands).getD 1 dfltSamplePoint).range_end -
        ((make_bitcoinz_distribution 6 exC3Cands).getD 1 dfltSamplePoint).range_start ∧
    (make_bitcoinz_distribution 6 exC3Cands).countP (containsR u128Max) = 0 := by
  refine ⟨by decide, by decide, by decide, by decide⟩

/-- Witness for `make_distribution_partition` at burn fees 3000 and 1000. -/
theorem make_distribution_partition_witness :
    (make_bitcoinz_distribution 6 [mkExCommit 3000 1, mkExCommit 1000 2]).length =
      [mkExCommit 3000 1, mkExCommit 1000 2].length ∧
    (make_bitcoinz_distribution 6 [mkExCommit 3000 1, mkExCommit 1000 2]).map (·.candidate) =
      [mkExCommit 3000 1, mkExCommit 1000 2] ∧
    (∀ p ∈ make_bitcoinz_distribution 6 [mkExCommit 3000 1, mkExCommit 1000 2],
      p.burn_amount = p.candidate.burn_fee) ∧
    chainFromB 0 (make_bitcoinz_distribution 6 [mkExCommit 3000 1, mkExCommit 1000 2]) = true ∧
    (∀ p ∈ (make_bitcoinz_distribution 6 [mkExCommit 3000 1, mkExCommit 1000 2]).dropLast,
      p.range_end - p.range_start = p.burn_amount * (u128Max / 4000)) ∧
    (∀ p ∈ (make_bitcoinz_distribution 6 [mkExCommit 3000 1, mkExCommit 1000 2]).dropLast,
      ∀ w ∈ (make_bitcoinz_distribution 6 [mkExCommit 3000 1, mkExCommit 1000 2]).dropLast,
        w.burn_amount ≤ p.burn_amount →
        w.range_end - w.range_start ≤ p.range_end - p.range_start) ∧
    (∀ r : Nat, r < u128Max →
      (make_bitcoinz_distribution 6 [mkExCommit 3000 1, mkExCommit 1000 2]).countP
        (containsR r) = 1) :=
  make_distribution_partition [mkExCommit 3000 1, mkExCommit 1000 2] _ 4000 rfl
    (by decide) (by decide) (by decide) (by decide)
